import Mathlib

/-
Verification development for the SeRFE dynamic sediment-balance model
(Scripts/dynamic_model.py, class SerfeModel).

Embedding conventions:
* Python floats are modelled as exact rational numbers (ℚ).  All the
  decision logic of the model (branch guards, mass bookkeeping, the
  scheduler) is rational arithmetic and is embedded verbatim.
* Subexpressions whose Python value is transcendental (the fitted width
  regression, Manning depth `((n Q)/(w S^0.5))^0.6`, the stream-power
  transport capacity, migration rates, flow velocities, the settling
  velocity constants w_s) are taken as explicit inputs of the embedded
  functions; each input field is annotated with the source line that
  computes it.  No claim below depends on the internals of those
  subexpressions, only on how their values are used by the routing,
  ledger and scheduling logic.
* The topology helper class TopologyTools (network_topology.py) is not
  part of the sources; where its behaviour matters (the traversal
  scheduler) it is modelled from the spec, as documented at the
  corresponding definitions.
-/

namespace SeRFE

/-! ## Sediment pulse tracker

`seg_dict` maps a segment id to its pulse ledger, a list of
`[mass, remaining-distance]` pairs; `out_dict` maps a segment id to its
transfer-out list (dynamic_model.py lines 86-92). -/

/-- The per-reach pulse dictionaries of SerfeModel: `seg` is
`self.seg_dict` (pulse ledger per segment), `out` is `self.out_dict`
(transfer-out list per segment). -/
structure PulseSt where
  seg : ℕ → List (ℚ × ℚ)
  out : ℕ → List (ℚ × ℚ)

/-- Total mass of a pulse list: the sum of the first components
(`store_tot` accumulation pattern, lines 249-252 and 270-273). -/
def massSum (l : List (ℚ × ℚ)) : ℚ := (l.map Prod.fst).sum

/-- The transfer-out list of an optional upstream segment; `[]` when the
upstream segment does not exist (the `if us_seg is not None` guards at
lines 261-266). -/
def usOut (u : Option ℕ) (st : PulseSt) : List (ℚ × ℚ) :=
  match u with
  | some x => st.out x
  | none => []

/-- SerfeModel.update_seg_dict (lines 244-276), acting on the pulse
dictionaries.  Sums the resident masses (flooring at zero), collapses
them into one entry at distance `vel*86400 - Length_m`, appends the
upstream transfer-out entries, re-sorts ascending by distance
(`sort(key=takeSecond)`, a stable sort) and resets the ledger to
`[[0,0]]` when the total mass is zero. -/
def update_seg_dict (L vel : ℚ) (segid : ℕ) (us1 us2 : Option ℕ) (st : PulseSt) : PulseSt :=
  let store_sum := massSum (st.seg segid)
  let store_sum := if store_sum < 0 then 0 else store_sum
  let merged := (store_sum, vel * 86400 - L) :: (usOut us1 st ++ usOut us2 st)
  let sorted := merged.insertionSort (fun a b => a.2 ≤ b.2)
  let final := if massSum sorted = 0 then [((0:ℚ), (0:ℚ))] else sorted
  { st with seg := Function.update st.seg segid final }

/-- The entry loop of SerfeModel.pulse_propagate (lines 284-298),
translated functionally: returns the updated ledger entries, the
entries appended to the transfer-out list, the accumulated `qs_out`
and the remaining `transport`.  The source mutates each entry `i` in
place; note that in the full-entry branch the source executes
`i[0] = 0` *before* `transport = transport - i[0]`, so `transport` is
decremented by zero there — translated verbatim. -/
def ppLoop (L : ℚ) : List (ℚ × ℚ) → ℚ → (List (ℚ × ℚ) × List (ℚ × ℚ) × ℚ × ℚ)
  | [], t => ([], [], 0, t)
  | (m, d) :: rest, t =>
      if t ≥ m then
        if d - L > 0 then
          let r := ppLoop L rest t
          ((0, d) :: r.1, (m, d - L) :: r.2.1, m + r.2.2.1, r.2.2.2)
        else
          let r := ppLoop L rest t
          ((m, d) :: r.1, r.2.1, r.2.2.1, r.2.2.2)
      else
        let r := ppLoop L rest 0
        ((m - t, d) :: r.1, (t, d - L) :: r.2.1, t + r.2.2.1, r.2.2.2)

/-- Result of pulse_propagate: the returned pair `(qs_out, transport)`
and the pulse dictionaries after the call. -/
structure PPRes where
  qs_out : ℚ
  transport : ℚ
  st : PulseSt

/-- SerfeModel.pulse_propagate (lines 278-307).  If the ledger is not
the trivial `[[0,0]]`, the transfer-out list of the reach is reset to
`[]`; then, when `transport > 0`, the entry loop runs.  Otherwise
nothing changes. -/
def pulse_propagate (L : ℚ) (segid : ℕ) (transport : ℚ) (st : PulseSt) : PPRes :=
  if st.seg segid ≠ [((0:ℚ), (0:ℚ))] then
    if transport > 0 then
      let r := ppLoop L (st.seg segid) transport
      { qs_out := r.2.2.1, transport := r.2.2.2,
        st := { seg := Function.update st.seg segid r.1,
                out := Function.update st.out segid r.2.1 } }
    else
      { qs_out := 0, transport := transport,
        st := { st with out := Function.update st.out segid [] } }
  else
    { qs_out := 0, transport := transport, st := st }

/-! ## Reach mass-balance engine

SerfeModel.apply_to_reach (lines 309-827).  The hydraulic quantities
computed at lines 317-450 (discharge, regression width, Manning depth,
transport capacities, migration rates, channel/floodplain velocities)
are transcendental functions of the reach attributes; they enter the
routing logic only as values, and are therefore fields of the input
records below, each annotated with the line that computes it.  The
routing logic itself (lines 452-825) is embedded verbatim. -/

/-- Scenario-independent inputs of the routing logic of apply_to_reach. -/
structure SharedIn where
  /-- discharge at the reach, line 318 (get_flow). -/
  flow : ℚ
  /-- channel width after the 0.5 m floor and bankfull cap, lines 321-327. -/
  w : ℚ
  /-- network attribute `w_bf` (bankfull width). -/
  w_bf : ℚ
  /-- network attribute `Length_m`. -/
  Length_m : ℚ
  /-- network attribute `fp_area`. -/
  fp_area : ℚ
  /-- network attribute `confine` (0 unconfined, 1 confined). -/
  confine : ℚ
  /-- network attribute `eff_DA` of this reach. -/
  eff_DA : ℚ
  /-- `eff_DA` of `nt.get_next_reach(segid)`, `none` when there is no
  downstream reach (the dam-override lookups at lines 563-566, 685-688,
  806-809). -/
  nextEffDA : Option ℚ
  /-- model parameter `bulk_dens`. -/
  bulk_dens : ℚ
  /-- direct hillslope sediment routed to the channel, lines 342-358. -/
  qs_channel : ℚ
  /-- whether `time == 1` (the `if time > 1` storage-delta guards at
  lines 580-583, 701-704, 822-825). -/
  firstDay : Bool

/-- Per-scenario inputs of the routing logic (the `_min`, `_mid` or
`_max` suffixed quantities of apply_to_reach). -/
structure ScenIn where
  /-- network attribute `Slope_*`, read at lines 384-386. -/
  S : ℚ
  /-- Manning depth for this scenario, lines 332-334. -/
  depth : ℚ
  /-- upstream sediment input `qs_us_*`, line 337 (get_upstream_qs). -/
  qs_us : ℚ
  /-- previous-day channel storage `prev_ch_store_*`, lines 369-381. -/
  prev_ch_store : ℚ
  /-- floodplain storage `fp_store_*` computed at lines 349-360. -/
  fp_store : ℚ
  /-- floodplain thickness `fp_thick_*` computed at lines 349-360. -/
  fp_thick : ℚ
  /-- network attribute `fpt_*` (stored floodplain thickness). -/
  fpt_stored : ℚ
  /-- transport capacity `cap_*`, lines 416-418 (transport_capacity). -/
  cap : ℚ
  /-- migration rate `mig_rate_*`, lines 423-450. -/
  mig_rate : ℚ
  /-- channel flow velocity `v_chan`, e.g. line 481. -/
  v_chan : ℚ
  /-- floodplain flow velocity `v_fp`, e.g. line 482. -/
  v_fp : ℚ
  /-- settling-velocity constant `w_s` of this scenario's block
  (lines 523, 643, 764). -/
  w_s : ℚ
  /-- previous-day `Store_tot_*` from the output table, lines 581, 702, 823. -/
  prev_store_tot : ℚ

/-- The per-scenario results of one block of apply_to_reach: the values
written to the output table for this scenario (lines 574-583 and the
mid/max analogues) and the updated network attributes `Slope_*` and
`fpt_*`. -/
structure ScenOut where
  Qs : ℚ
  Qs_out : ℚ
  CSR : ℚ
  Store_chan : ℚ
  Store_tot : ℚ
  Store_delta : ℚ
  Slope : ℚ
  fpt : ℚ
  fp_store : ℚ

/-- The sediment supply of a scenario:
`qs_channel + qs_us_* + prev_ch_store_*`. -/
def supplyOf (sh : SharedIn) (sc : ScenIn) : ℚ :=
  sh.qs_channel + sc.qs_us + sc.prev_ch_store

/-- Floodplain recruitment before the suspended-fraction adjustment
(lines 506, 621-624, 742-745):
`min((mig_rate*86400)*(Length_m*(1-confine))*fp_thick*bulk_dens,
fp_area*fpt*bulk_dens)`. -/
def fp_recrBase (sh : SharedIn) (sc : ScenIn) : ℚ :=
  min ((sc.mig_rate * 86400) * (sh.Length_m * (1 - sh.confine)) * sc.fp_thick * sh.bulk_dens)
    (sh.fp_area * sc.fpt_stored * sh.bulk_dens)

/-- The velocity-corrected floodplain volume ratio `fp_ratio`
(lines 479-484 and the other five occurrences). -/
def fpRatio (sh : SharedIn) (sc : ScenIn) : ℚ :=
  let vol_channel := sc.depth * sh.Length_m * min sh.w sh.w_bf
  let vol_fp := (sc.depth - sc.fp_thick) * sh.fp_area
  let v_ratio := sc.v_fp / sc.v_chan
  vol_fp * v_ratio / ((vol_channel + vol_fp) - vol_fp * v_ratio)

/-- Floodplain recruitment after the suspended-fraction adjustment in
the overbank capacity-limited sub-branch
(`fp_recr - (qs_us_min * fp_ratio * fp_v_ratio)`, lines 523-525,
643-645, 764-766).  In the source all three scenario blocks use the
low-scenario upstream input `qs_us_min` here; it is the `ql` argument. -/
def fp_recrAdj (sh : SharedIn) (sc : ScenIn) (ql : ℚ) : ℚ :=
  fp_recrBase sh sc - ql * fpRatio sh sc * min (sc.w_s / sc.v_fp) (1 / 100)

/-- The capacity-supply-ratio convention of apply_to_reach applied to a
denominator `d` (lines 496-502 etc.): `cap/d` when `d` is nonzero,
otherwise `cap` when `cap > 0`, otherwise `1`. -/
def csrConv (cap d : ℚ) : ℚ :=
  if d = 0 then (if cap > 0 then cap else 1) else cap / d

/-- The state produced by one scenario branch before the dam override:
export, channel storage, CSR, updated slope, floodplain storage and
thickness. -/
structure CoreOut where
  qs_out : ℚ
  channel_store : ℚ
  csr : ℚ
  Slope : ℚ
  fp_store : ℚ
  fp_thick : ℚ

/-- One scenario block of apply_to_reach before the dam override: the
three-way supply-vs-capacity branch (lines 469-560 for the low
scenario; lines 585-682 and 706-803 are identical up to the
scenario-indexed inputs, the export base `eb` — the low block exports
`transport_rem_min + qsout_min` at line 472 whereas the mid and high
blocks export `cap + qsout` at lines 587 and 708 — and the settling
constant `w_s`).  `ql` is the low-scenario upstream input used by the
suspended-fraction adjustment in all three blocks (lines 525, 645,
766); `tr` is the remaining transport capacity `transport_rem_*`
returned by pulse_propagate and `qsout` the pulse export `qsout_*`
(lines 452-466). -/
def scenarioCore (sh : SharedIn) (sc : ScenIn) (eb ql tr qsout : ℚ) : CoreOut :=
  let supply := supplyOf sh sc
  if tr < supply - qsout then
    -- greater sediment load than transport capacity (lines 471-502)
    let qs_out := eb + qsout
    let csr := csrConv sc.cap supply
    if sh.confine ≠ 1 then
      if sc.depth < sc.fp_thick then
        let channel_store := supply - qs_out
        let delta_h := ((channel_store - sc.prev_ch_store) * (1 / sh.bulk_dens)) /
          (1 / 2 * sh.w_bf * sh.Length_m)
        ⟨qs_out, channel_store, csr, sc.S + delta_h / sh.Length_m, sc.fp_store, sc.fp_thick⟩
      else
        let sed_remain := supply - qs_out
        let channel_store := sed_remain * (1 - fpRatio sh sc)
        let delta_h := ((channel_store - sc.prev_ch_store) * (1 / sh.bulk_dens)) /
          (1 / 2 * sh.w_bf * sh.Length_m)
        let fp_store2 := sc.fp_store + (sed_remain - channel_store)
        ⟨qs_out, channel_store, csr, sc.S + delta_h / sh.Length_m, fp_store2,
          fp_store2 / sh.fp_area * (1 / sh.bulk_dens)⟩
    else
      let channel_store := supply - qs_out
      let delta_h := ((channel_store - sc.prev_ch_store) * (1 / sh.bulk_dens)) /
        (1 / 2 * sh.w_bf * sh.Length_m)
      ⟨qs_out, channel_store, csr, sc.S + delta_h / sh.Length_m, sc.fp_store, sc.fp_thick⟩
  else if tr > supply - qsout then
    -- greater transport capacity than sediment load (lines 504-555)
    if sh.confine ≠ 1 then
      if sc.depth < sc.fp_thick then
        let fp_recr := fp_recrBase sh sc
        let qs_out := supply + fp_recr + qsout
        let fp_store2 := sc.fp_store - fp_recr
        let channel_store := (0:ℚ)
        let delta_h := ((channel_store - sc.prev_ch_store) * (1 / sh.bulk_dens)) /
          (1 / 2 * sh.w_bf * sh.Length_m)
        let fp_recr_thick := fp_recr / sh.fp_area * (1 / sh.bulk_dens)
        let csr := csrConv sc.cap (supply + fp_recr)
        ⟨qs_out, channel_store, csr, sc.S + delta_h / sh.Length_m, fp_store2,
          max 0 (sc.fp_thick - fp_recr_thick)⟩
      else
        let fp_recr := fp_recrAdj sh sc ql
        let qs_out := supply + fp_recr + qsout
        let fp_store2 := sc.fp_store - fp_recr
        let channel_store := (0:ℚ)
        let delta_h := ((channel_store - sc.prev_ch_store) * (1 / sh.bulk_dens)) /
          (1 / 2 * sh.w_bf * sh.Length_m)
        let fp_recr_thick := fp_recr / sh.fp_area * (1 / sh.bulk_dens)
        let csr := csrConv sc.cap (supply + fp_recr)
        ⟨qs_out, channel_store, csr, sc.S + delta_h / sh.Length_m, fp_store2,
          max 0 (sc.fp_thick - fp_recr_thick)⟩
    else
      let channel_store := (0:ℚ)
      let delta_h := ((channel_store - sc.prev_ch_store) * (1 / sh.bulk_dens)) /
        (1 / 2 * sh.w_bf * sh.Length_m)
      let qs_out := supply + qsout
      let csr := csrConv sc.cap supply
      ⟨qs_out, channel_store, csr, sc.S + delta_h / sh.Length_m, sc.fp_store, sc.fp_thick⟩
  else
    -- sediment load equals transport capacity (lines 557-560)
    ⟨supply, 0, 1, sc.S, sc.fp_store, sc.fp_thick⟩

/-- The dam override condition: the immediate downstream reach exists
and has a strictly smaller effective drainage area (lines 563-566,
685-688, 806-809). -/
def damBreak (sh : SharedIn) : Bool :=
  match sh.nextEffDA with
  | some v => decide (v < sh.eff_DA)
  | none => false

/-- One full scenario block of apply_to_reach: the three-way branch,
then the dam override, the total-storage and storage-delta bookkeeping
and the conditional persistence of the floodplain thickness to the
network (`if confine != 1`, lines 562-583 and the mid/max analogues).
The `Slope` field is the network's `Slope_*` attribute after the
block; the `fpt` field is the network's `fpt_*` attribute after the
block. -/
def scenarioStep (sh : SharedIn) (sc : ScenIn) (eb ql tr qsout : ℚ) : ScenOut :=
  let c := scenarioCore sh sc eb ql tr qsout
  let qs_out := if damBreak sh then 0 else c.qs_out
  let store_tot := c.channel_store + c.fp_store
  { Qs := supplyOf sh sc
    Qs_out := qs_out
    CSR := c.csr
    Store_chan := c.channel_store
    Store_tot := store_tot
    Store_delta := if sh.firstDay then 0 else store_tot - sc.prev_store_tot
    Slope := c.Slope
    fpt := if sh.confine ≠ 1 then c.fp_thick else sc.fpt_stored
    fp_store := c.fp_store }

/-- The results of one apply_to_reach call: the three scenario rows
written to the output table, the intermediate pulse quantities
`qsout_*`/`transport_rem_*` of lines 452-466, and the pulse
dictionaries after the call. -/
structure ApplyRes where
  Q : ℚ
  minOut : ScenOut
  midOut : ScenOut
  maxOut : ScenOut
  qsout_min : ℚ
  qsout_mid : ℚ
  qsout_max : ℚ
  tr_min : ℚ
  tr_mid : ℚ
  tr_max : ℚ
  pulse : PulseSt

/-- The scenario pipeline of SerfeModel.apply_to_reach from the pulse
bookkeeping on (lines 362-367 and 452-825).  `distActive` is the
condition `dist_start != -9999 and dist_start <= time` (tested
identically at lines 363-364, 388-389 and 452-453); `vel` is the
velocity of line 366 (computed from the mid-scenario depth and slope);
`us1`/`us2` are `nt.find_us_seg(segid)` / `nt.find_us_seg2(segid)`.
During a disturbance the day's channel load is appended to the ledger
and the ledger advanced (lines 365-367), then pulse_propagate runs for
the three capacities in source order low, high, mid (lines 454-456),
threading the shared pulse dictionaries.  Each scenario block then runs
with its own inputs; the low block's export base is its remaining
capacity `transport_rem_min`, the mid and high blocks use the full
capacities (lines 472, 587, 708), and all three receive the
low-scenario upstream input for the suspended-fraction adjustment. -/
def applyScenarios (sh : SharedIn) (scMin scMid scMax : ScenIn) (distActive : Bool)
    (vel : ℚ) (segid : ℕ) (us1 us2 : Option ℕ) (st : PulseSt) : ApplyRes :=
  let st1 := if distActive then
      update_seg_dict sh.Length_m vel segid us1 us2
        { st with seg := Function.update st.seg segid (st.seg segid ++ [(sh.qs_channel, 0)]) }
    else st
  let pmin := if distActive then pulse_propagate sh.Length_m segid scMin.cap st1
    else { qs_out := 0, transport := scMin.cap, st := st1 }
  let pmax := if distActive then pulse_propagate sh.Length_m segid scMax.cap pmin.st
    else { qs_out := 0, transport := scMax.cap, st := pmin.st }
  let pmid := if distActive then pulse_propagate sh.Length_m segid scMid.cap pmax.st
    else { qs_out := 0, transport := scMid.cap, st := pmax.st }
  { Q := sh.flow
    minOut := scenarioStep sh scMin pmin.transport scMin.qs_us pmin.transport pmin.qs_out
    midOut := scenarioStep sh scMid scMid.cap scMin.qs_us pmid.transport pmid.qs_out
    maxOut := scenarioStep sh scMax scMax.cap scMin.qs_us pmax.transport pmax.qs_out
    qsout_min := pmin.qs_out
    qsout_mid := pmid.qs_out
    qsout_max := pmax.qs_out
    tr_min := pmin.transport
    tr_mid := pmid.transport
    tr_max := pmax.transport
    pulse := pmid.st }

/-! ## Traversal scheduler

SerfeModel.run_first_order (lines 829-852), run_below_confluences
(lines 854-894) and the per-day output reset of run_model (lines
909-912).  The topology helpers they call live in the missing module
network_topology.py; they are modelled from the spec as follows.

Modelled from the spec (TopologyTools, network_topology.py, absent
from the sources): per spec section 2 the Topology Index "answers graph
queries over the drainage network (upstream/downstream segment sets,
immediate upstream/downstream neighbors, confluence chaining)".
* `get_next_reach` is the immediate downstream neighbour: the `down`
  field below.
* `find_us_seg`/`find_us_seg2` are the (at most two) immediate upstream
  neighbours: the `us1`/`us2` fields, constrained by `SchedWF` at
  confluences.
* `seg_id_from_rid('1.1')` and `get_next_chain` enumerate the
  first-order chains (spec section 4.1: "starting from the designated
  most-upstream chain, walk downstream along non-branching chains,
  stopping at any confluence", then move to the next chain): the
  `foHeads` field lists the chain heads in that enumeration order.
* `conf_list`, the confluences sorted ascending by drainage area
  (lines 860-864), is the `pending0` field; the claims do not depend on
  the sort order, so the sorted list is taken as given.
* `rank` is a height function certifying that `down` edges form a
  forest (strictly rank-increasing downstream), as holds for any finite
  tree network.

Only the `Qs_out_mid` column of the output table matters to the
scheduler (the readiness guard at line 872), so the per-day state
tracks that column plus the trace of apply_to_reach invocations; the
value a visit writes is abstracted as a function `val` (apply_to_reach
always overwrites the sentinel, its export being a physical mass). -/

/-- The network data consumed by the scheduler. -/
structure SchedNet where
  n : ℕ
  down : ℕ → Option ℕ
  conf : ℕ → Bool
  us1 : ℕ → ℕ
  us2 : ℕ → ℕ
  foHeads : List ℕ
  pending0 : List ℕ
  rank : ℕ → ℕ

/-- The sentinel marking "not yet computed this day" (run_model lines
909-912 set `Qs_out_* = -9999` at the start of each day). -/
def sentinel : ℚ := -9999

/-- Per-day scheduler-visible state: the `Qs_out_mid` column of the
output table for the current day, and the ordered trace of
apply_to_reach invocations. -/
structure DaySt where
  qsOutMid : ℕ → ℚ
  trace : List ℕ

/-- One apply_to_reach invocation as the scheduler sees it: record the
reach in the trace and overwrite its sentinel with the computed export
`val r`. -/
def visit (val : ℕ → ℚ) (r : ℕ) (st : DaySt) : DaySt :=
  ⟨Function.update st.qsOutMid r (val r), st.trace ++ [r]⟩

/-- The chain of reaches walked from `r`: `r` followed by downstream
reaches until the next reach is a confluence or absent (the common
walk of run_first_order lines 838-850 and run_below_confluences lines
877-890).  `fuel` bounds the recursion; `n` always suffices. -/
def chainFrom (N : SchedNet) : ℕ → ℕ → List ℕ
  | 0, _ => []
  | fuel + 1, r =>
      r :: (match N.down r with
        | none => []
        | some m => if N.conf m then [] else chainFrom N fuel m)

/-- The walk itself: apply_to_reach on `r`, then continue downstream
while the next reach exists and is not a confluence. -/
def walkChain (N : SchedNet) (val : ℕ → ℚ) : ℕ → ℕ → DaySt → DaySt
  | 0, _, st => st
  | fuel + 1, r, st =>
      let st1 := visit val r st
      match N.down r with
      | none => st1
      | some m => if N.conf m then st1 else walkChain N val fuel m st1

/-- SerfeModel.run_first_order (lines 829-852): walk each first-order
chain in enumeration order (`seg_id_from_rid('1.1')` then
`get_next_chain`), invoking apply_to_reach along each chain. -/
def firstOrderPass (N : SchedNet) (val : ℕ → ℚ) : List ℕ → DaySt → DaySt
  | [], st => st
  | h :: rest, st => firstOrderPass N val rest (walkChain N val N.n h st)

/-- The readiness guard of run_below_confluences (line 872): a
confluence is blocked while either upstream `Qs_out_mid` is still the
sentinel. -/
def blocked (N : SchedNet) (st : DaySt) (c : ℕ) : Bool :=
  decide (st.qsOutMid (N.us1 c) = sentinel) || decide (st.qsOutMid (N.us2 c) = sentinel)

/-- One `for x in conf_list` sweep of run_below_confluences (lines
867-892), starting at iterator position `i`.  A blocked confluence is
skipped (`pass`); an unblocked one is run together with its downstream
chain and then removed from the list (`conf_list.remove(x)` removes the
first occurrence).  Removing the element the iterator just yielded
makes the Python iterator resume at position `i+1` of the shortened
list, skipping the element that followed `x`; translated verbatim. -/
def scanFrom (N : SchedNet) (val : ℕ → ℚ) (i : ℕ) (p : List ℕ) (st : DaySt) :
    List ℕ × DaySt :=
  if h : i < p.length then
    if blocked N st (p.get ⟨i, h⟩) then scanFrom N val (i + 1) p st
    else scanFrom N val (i + 1) (p.erase (p.get ⟨i, h⟩))
      (walkChain N val N.n (p.get ⟨i, h⟩) st)
  else (p, st)
termination_by p.length - i
decreasing_by
  · omega
  · have hx : p.get ⟨i, h⟩ ∈ p := p.get_mem _ _
    have := List.length_erase_of_mem hx
    omega

/-- One iteration of the `while len(conf_list) > 0` loop: a full sweep
over the current pending list. -/
def scanPass (N : SchedNet) (val : ℕ → ℚ) (p : List ℕ) (st : DaySt) : List ℕ × DaySt :=
  scanFrom N val 0 p st

/-- SerfeModel.run_below_confluences (lines 854-894): sweep the pending
confluence list until it is empty.  The source `while` loop has no
iteration cap and no error path; the `fuel` argument makes the
embedding total, `none` marking that the source loop is still spinning
after `fuel` sweeps. -/
def runBelow (N : SchedNet) (val : ℕ → ℚ) : ℕ → List ℕ → DaySt → Option DaySt
  | fuel, p, st =>
      if p = [] then some st
      else
        match fuel with
        | 0 => none
        | fuel' + 1 =>
            runBelow N val fuel' (scanPass N val p st).1 (scanPass N val p st).2

/-- The state at the start of a day: every `Qs_out_mid` reset to the
sentinel (run_model lines 909-912), no reach yet visited. -/
def initSt : DaySt := ⟨fun _ => sentinel, []⟩

/-- One simulated day of the scheduler: run_first_order followed by
run_below_confluences (run_model lines 925-929), the latter with fuel
equal to the number of pending confluences (which the termination proof
shows suffices on well-formed networks). -/
def runDay (N : SchedNet) (val : ℕ → ℚ) : Option DaySt :=
  runBelow N val N.pending0.length N.pending0 (firstOrderPass N val N.foHeads initSt)

/-- Downstream edges strictly increase `rank` and stay in range: the
acyclicity certificate for one reach. -/
def downOK (N : SchedNet) (r : ℕ) : Bool :=
  match N.down r with
  | none => true
  | some m => decide (N.rank r < N.rank m) && decide (m < N.n)

/-- Well-formedness of a finite tree network and its chain enumeration
(spec sections 1 and 4.1: a directed tree converging to a single
outlet, at most two contributing segments per confluence, every reach
on exactly one first-order or below-confluence chain):
1. the pending confluence list has no duplicates;
2. first-order chain heads are non-confluence reaches in range;
3. every pending confluence is in range, with two distinct in-range
   upstream neighbours whose downstream edge points at it;
4. downstream edges strictly increase `rank` and stay in range;
5. the first-order chains together with the chains hanging below the
   pending confluences cover every reach exactly once. -/
def SchedWF (N : SchedNet) : Prop :=
  N.pending0.Nodup ∧
  (∀ h ∈ N.foHeads, N.conf h = false ∧ h < N.n) ∧
  (∀ c ∈ N.pending0, N.conf c = true ∧ c < N.n ∧ N.us1 c < N.n ∧ N.us2 c < N.n ∧
    N.us1 c ≠ N.us2 c ∧ N.down (N.us1 c) = some c ∧ N.down (N.us2 c) = some c) ∧
  (∀ r < N.n, downOK N r = true) ∧
  ((N.foHeads ++ N.pending0).map (chainFrom N N.n)).flatten.Perm (List.range N.n)

/-- The dependency-order property of a trace: whenever a confluence
appears, both of its upstream reaches appear strictly before it. -/
def ordInv (N : SchedNet) (t : List ℕ) : Prop :=
  ∀ c, N.conf c = true → ∀ pre post, t = pre ++ c :: post → N.us1 c ∈ pre ∧ N.us2 c ∈ pre

/-- The loop invariant of run_below_confluences: the pending list is a
subsequence of the initial one; a reach's `Qs_out_mid` is non-sentinel
exactly when it has been visited; the trace is dependency-ordered; and
the trace is a permutation of the first-order chains together with the
chains of the already-processed confluences. -/
def Inv (N : SchedNet) (p : List ℕ) (st : DaySt) : Prop :=
  p.Sublist N.pending0 ∧
  (∀ x, st.qsOutMid x ≠ sentinel ↔ x ∈ st.trace) ∧
  ordInv N st.trace ∧
  st.trace.Perm
    (((N.foHeads ++ N.pending0.filter (fun c => decide (c ∉ p))).map (chainFrom N N.n)).flatten)

/-! ## Concrete example inputs

Small concrete reach configurations used by the counterexamples and
witnesses below.  `exSh`/`exMinA`/`exMinB`/`exMid`/`exMax`/`exSt` set
up a confined reach with an active disturbance whose day-load of 10
tonnes enters the ledger at remaining distance 1000 m; the two input
sets differ only in the low-scenario transport capacity (4 vs 0). -/

/-- Shared inputs of the disturbance example: a confined reach, length
100 m, day load 10 t, no downstream reach. -/
def exSh : SharedIn :=
  { flow := 1, w := 1, w_bf := 2, Length_m := 100, fp_area := 0, confine := 1,
    eff_DA := 1, nextEffDA := none, bulk_dens := 1, qs_channel := 10, firstDay := true }

/-- Low-scenario inputs of the disturbance example, capacity 4. -/
def exMinA : ScenIn :=
  { S := 1, depth := 1, qs_us := 0, prev_ch_store := 0, fp_store := 0, fp_thick := 0,
    fpt_stored := 0, cap := 4, mig_rate := 0, v_chan := 1, v_fp := 1, w_s := 1,
    prev_store_tot := 0 }

/-- Low-scenario inputs of the disturbance example, capacity 0. -/
def exMinB : ScenIn := { exMinA with cap := 0 }

/-- Mid-scenario inputs of the disturbance example, capacity 5. -/
def exMid : ScenIn := { exMinA with cap := 5 }

/-- High-scenario inputs of the disturbance example, capacity 6. -/
def exMax : ScenIn := { exMinA with cap := 6 }

/-- Initial pulse dictionaries of the disturbance example: trivial
ledgers, empty transfer lists. -/
def exSt : PulseSt := ⟨fun _ => [((0:ℚ), (0:ℚ))], fun _ => []⟩

/-- Shared inputs of the floodplain-recruitment example: an unconfined
reach, length 10 m, floodplain area 100 m², direct channel load 5 t. -/
def c7Sh : SharedIn :=
  { flow := 1, w := 1, w_bf := 1, Length_m := 10, fp_area := 100, confine := 0,
    eff_DA := 1, nextEffDA := none, bulk_dens := 1, qs_channel := 5, firstDay := true }

/-- Scenario inputs of the floodplain-recruitment example: capacity 50
well above the supply of 5, migration rate 1/86400, floodplain
thickness 2 m above the 1 m flow depth. -/
def c7Sc : ScenIn :=
  { S := 1, depth := 1, qs_us := 0, prev_ch_store := 0, fp_store := 10, fp_thick := 2,
    fpt_stored := 1, cap := 50, mig_rate := 1/86400, v_chan := 1, v_fp := 1, w_s := 1,
    prev_store_tot := 0 }

/-- Shared inputs of the dam example: the downstream reach has
effective drainage area 1, smaller than this reach's 2. -/
def c8Sh : SharedIn := { exSh with nextEffDA := some 1, eff_DA := 2 }

/-- Shared inputs of the confined-slope example: a confined reach. -/
def c9Sh : SharedIn :=
  { flow := 1, w := 1, w_bf := 2, Length_m := 1, fp_area := 0, confine := 1,
    eff_DA := 1, nextEffDA := none, bulk_dens := 1, qs_channel := 0, firstDay := true }

/-- Scenario inputs of the confined-slope example: previous channel
storage 1, capacity 5 above the supply of 1. -/
def c9Sc : ScenIn :=
  { S := 1, depth := 1, qs_us := 0, prev_ch_store := 1, fp_store := 0, fp_thick := 0,
    fpt_stored := 7, cap := 5, mig_rate := 0, v_chan := 1, v_fp := 1, w_s := 1,
    prev_store_tot := 0 }

/-- A well-formed three-reach network: two headwater chains `[0]` and
`[1]` joining at the confluence outlet `2`. -/
def tinyNet : SchedNet :=
  { n := 3
    down := fun r => if r = 0 then some 2 else if r = 1 then some 2 else none
    conf := fun r => decide (r = 2)
    us1 := fun _ => 0
    us2 := fun _ => 1
    foHeads := [0, 1]
    pending0 := [2]
    rank := fun r => r }

/-- A malformed network: the confluence 2 is pending but its upstream
reaches 0 and 1 lie on no first-order chain, so their exports stay at
the sentinel forever and the confluence never unblocks. -/
def badNet : SchedNet :=
  { n := 3
    down := fun r => if r = 0 then some 2 else if r = 1 then some 2 else none
    conf := fun r => decide (r = 2)
    us1 := fun _ => 0
    us2 := fun _ => 1
    foHeads := []
    pending0 := [2]
    rank := fun r => r }

/-! ## Helper lemmas: pulse ledger mass accounting -/

/-- Permuted pulse lists have equal total mass. -/
theorem massSum_perm {l l' : List (ℚ × ℚ)} (h : l.Perm l') : massSum l = massSum l' :=
  List.Perm.sum_eq (h.map Prod.fst)

/-- massSum distributes over append. -/
theorem massSum_append (l l' : List (ℚ × ℚ)) : massSum (l ++ l') = massSum l + massSum l' := by
  simp [massSum]

/-- The entry loop removes from the ledger exactly the mass it reports
as exported. -/
theorem ppLoop_mass (L : ℚ) (l : List (ℚ × ℚ)) (t : ℚ) :
    massSum (ppLoop L l t).1 = massSum l - (ppLoop L l t).2.2.1 := by
  induction l generalizing t with
  | nil => simp [ppLoop, massSum]
  | cons hd tl ih =>
      obtain ⟨m, d⟩ := hd
      simp only [ppLoop]
      split_ifs with h1 h2 <;> simp [massSum, List.map_cons, List.sum_cons] at ih ⊢ <;>
        rw [ih] <;> ring

/-- After update_seg_dict the ledger of the reach holds the floored
resident mass plus the masses handed down by the upstream transfer
lists. -/
theorem update_seg_dict_mass (L vel : ℚ) (segid : ℕ) (us1 us2 : Option ℕ) (st : PulseSt) :
    massSum ((update_seg_dict L vel segid us1 us2 st).seg segid)
      = (if massSum (st.seg segid) < 0 then 0 else massSum (st.seg segid))
        + massSum (usOut us1 st) + massSum (usOut us2 st) := by
  unfold update_seg_dict
  simp only [Function.update_same]
  set s0 : ℚ := if massSum (st.seg segid) < 0 then 0 else massSum (st.seg segid) with hs0
  have hperm : ((s0, vel * 86400 - L) :: (usOut us1 st ++ usOut us2 st)).insertionSort
      (fun a b => a.2 ≤ b.2) |>.Perm ((s0, vel * 86400 - L) :: (usOut us1 st ++ usOut us2 st)) :=
    List.perm_insertionSort _ _
  have hmass : massSum (((s0, vel * 86400 - L) :: (usOut us1 st ++ usOut us2 st)).insertionSort
      (fun a b => a.2 ≤ b.2)) = s0 + massSum (usOut us1 st) + massSum (usOut us2 st) := by
    rw [massSum_perm hperm]
    simp [massSum, List.map_append]
    ring
  split_ifs with hzero
  · rw [hmass] at hzero
    simpa [massSum] using hzero.symm
  · exact hmass

/-- pulse_propagate removes from the ledger of the reach exactly the
mass it reports as exported, whatever branch it takes. -/
theorem pulse_propagate_mass (L cap : ℚ) (segid : ℕ) (st : PulseSt) :
    massSum ((pulse_propagate L segid cap st).st.seg segid)
      = massSum (st.seg segid) - (pulse_propagate L segid cap st).qs_out := by
  unfold pulse_propagate
  split_ifs with h1 h2
  · simp only [Function.update_same]
    exact ppLoop_mass L (st.seg segid) cap
  · simp
  · simp

/-- Claim C4: for every reach and time step, after update_seg_dict
followed by pulse_propagate the total mass remaining in the reach's
ledger equals the resident mass before the update plus the total mass
of the merged upstream transfer entries minus the mass exported by
pulse_propagate (for non-negative resident mass, where the source's
floor at zero is the identity). -/
theorem c4_ledger_mass_conservation (L vel cap : ℚ) (segid : ℕ) (us1 us2 : Option ℕ)
    (st : PulseSt) (hres : 0 ≤ massSum (st.seg segid)) :
    massSum ((pulse_propagate L segid cap (update_seg_dict L vel segid us1 us2 st)).st.seg segid)
      = massSum (st.seg segid) + massSum (usOut us1 st) + massSum (usOut us2 st)
        - (pulse_propagate L segid cap (update_seg_dict L vel segid us1 us2 st)).qs_out := by
  have h1 := pulse_propagate_mass L cap segid (update_seg_dict L vel segid us1 us2 st)
  have h2 := update_seg_dict_mass L vel segid us1 us2 st
  rw [if_neg (not_lt.mpr hres)] at h2
  rw [h1, h2]

/-- Witness for C4: a concrete reach with resident ledger `[[3, 0]]`
receiving `[[2, 500]]` from upstream, transport capacity 10; the entry
at distance 0 is distance-exhausted and stays, the upstream entry is
exported, and the ledger mass balances: 3 = 3 + 2 + 0 - 2. -/
theorem c4_ledger_mass_conservation_witness :
    (0:ℚ) ≤ massSum ((⟨fun i => if i = 0 then [((3:ℚ), (100:ℚ))] else [(0, 0)],
        fun i => if i = 1 then [((2:ℚ), (500:ℚ))] else []⟩ : PulseSt).seg 0) ∧
    massSum ((pulse_propagate 100 0 10 (update_seg_dict 100 (1/864) 0 (some 1) none
        ⟨fun i => if i = 0 then [((3:ℚ), (100:ℚ))] else [(0, 0)],
         fun i => if i = 1 then [((2:ℚ), (500:ℚ))] else []⟩)).st.seg 0)
      = massSum ([((3:ℚ), (100:ℚ))] : List (ℚ × ℚ)) + massSum ([((2:ℚ), (500:ℚ))] : List (ℚ × ℚ))
        + massSum ([] : List (ℚ × ℚ))
        - (pulse_propagate 100 0 10 (update_seg_dict 100 (1/864) 0 (some 1) none
            ⟨fun i => if i = 0 then [((3:ℚ), (100:ℚ))] else [(0, 0)],
             fun i => if i = 1 then [((2:ℚ), (500:ℚ))] else []⟩)).qs_out := by
  constructor
  · norm_num [massSum]
  · have h := c4_ledger_mass_conservation 100 (1/864) 10 0 (some 1) none
      ⟨fun i => if i = 0 then [((3:ℚ), (100:ℚ))] else [(0, 0)],
       fun i => if i = 1 then [((2:ℚ), (500:ℚ))] else []⟩ (by norm_num [massSum])
    simpa [usOut] using h

/-- Claim C5 (code bug): pulse_propagate does not decrement the
transport capacity by the mass that leaves.  With reach length 100,
ledger `[[5, 1000]]` and capacity 10, the entry is moved to the
transfer-out list (with its distance reduced by the reach length) and
5 units are exported, yet the returned remaining capacity is still 10,
not 10 - 5: the source zeroes `i[0]` before subtracting it from
`transport` (lines 289-290). -/
theorem c5_capacity_not_decremented :
    (pulse_propagate 100 0 10 ⟨fun _ => [((5:ℚ), (1000:ℚ))], fun _ => []⟩).qs_out = 5 ∧
    (pulse_propagate 100 0 10 ⟨fun _ => [((5:ℚ), (1000:ℚ))], fun _ => []⟩).st.out 0
      = [((5:ℚ), (900:ℚ))] ∧
    (pulse_propagate 100 0 10 ⟨fun _ => [((5:ℚ), (1000:ℚ))], fun _ => []⟩).transport = 10 ∧
    (pulse_propagate 100 0 10 ⟨fun _ => [((5:ℚ), (1000:ℚ))], fun _ => []⟩).transport
      ≠ 10 - (pulse_propagate 100 0 10 ⟨fun _ => [((5:ℚ), (1000:ℚ))], fun _ => []⟩).qs_out := by
  norm_num [pulse_propagate, ppLoop]

/-- Claim C10: update_seg_dict reads but never writes the transfer-out
lists; pulse_propagate leaves everything unchanged when the ledger is
the trivial `[[0,0]]` (so a stale transfer-out list persists); and the
downstream merge appends the upstream transfer-out entries to the
downstream ledger (the merged ledger is a permutation of the collapsed
resident entry followed by both upstream transfer-out lists, whenever
the merged mass is nonzero). -/
theorem c10_transfer_list_framing (L vel cap : ℚ) (segid ds : ℕ) (us1 us2 : Option ℕ)
    (st : PulseSt) :
    ((update_seg_dict L vel segid us1 us2 st).out = st.out)
    ∧ (st.seg segid = [((0:ℚ), (0:ℚ))] → pulse_propagate L segid cap st = ⟨0, cap, st⟩)
    ∧ ((if massSum (st.seg ds) < 0 then 0 else massSum (st.seg ds))
          + massSum (usOut us1 st) + massSum (usOut us2 st) ≠ 0 →
        ((update_seg_dict L vel ds us1 us2 st).seg ds).Perm
          (((if massSum (st.seg ds) < 0 then (0:ℚ) else massSum (st.seg ds)), vel * 86400 - L)
            :: (usOut us1 st ++ usOut us2 st))) := by
  refine ⟨rfl, fun htriv => ?_, fun hnz => ?_⟩
  · unfold pulse_propagate
    rw [if_neg (by simp [htriv])]
  · unfold update_seg_dict
    simp only [Function.update_same]
    set s0 : ℚ := if massSum (st.seg ds) < 0 then 0 else massSum (st.seg ds) with hs0
    have hperm : ((s0, vel * 86400 - L) :: (usOut us1 st ++ usOut us2 st)).insertionSort
        (fun a b => a.2 ≤ b.2) |>.Perm
        ((s0, vel * 86400 - L) :: (usOut us1 st ++ usOut us2 st)) :=
      List.perm_insertionSort _ _
    rw [if_neg ?_]
    · exact hperm
    · rw [massSum_perm hperm]
      simp only [massSum, List.map_cons, List.sum_cons, List.map_append, List.sum_append]
      intro hc
      apply hnz
      simp only [massSum]
      linarith

/-- Witness for C10: a concrete state in which reach 0 has the trivial
ledger and a stale transfer-out list `[[7, 40]]`, and reach 1 (with
reach 0 upstream) merges that list into its ledger. -/
theorem c10_transfer_list_framing_witness :
    ((update_seg_dict 10 0 0 (some 0) none
        ⟨fun i => if i = 1 then [((2:ℚ), (5:ℚ))] else [(0, 0)],
         fun i => if i = 0 then [((7:ℚ), (40:ℚ))] else []⟩).out
      = (⟨fun i => if i = 1 then [((2:ℚ), (5:ℚ))] else [(0, 0)],
         fun i => if i = 0 then [((7:ℚ), (40:ℚ))] else []⟩ : PulseSt).out)
    ∧ (pulse_propagate 10 0 3
        ⟨fun i => if i = 1 then [((2:ℚ), (5:ℚ))] else [(0, 0)],
         fun i => if i = 0 then [((7:ℚ), (40:ℚ))] else []⟩
      = ⟨0, 3, ⟨fun i => if i = 1 then [((2:ℚ), (5:ℚ))] else [(0, 0)],
         fun i => if i = 0 then [((7:ℚ), (40:ℚ))] else []⟩⟩)
    ∧ (((update_seg_dict 10 0 1 (some 0) none
        ⟨fun i => if i = 1 then [((2:ℚ), (5:ℚ))] else [(0, 0)],
         fun i => if i = 0 then [((7:ℚ), (40:ℚ))] else []⟩).seg 1).Perm
          (((if massSum ((⟨fun i => if i = 1 then [((2:ℚ), (5:ℚ))] else [(0, 0)],
              fun i => if i = 0 then [((7:ℚ), (40:ℚ))] else []⟩ : PulseSt).seg 1) < 0 then (0:ℚ)
             else massSum ((⟨fun i => if i = 1 then [((2:ℚ), (5:ℚ))] else [(0, 0)],
              fun i => if i = 0 then [((7:ℚ), (40:ℚ))] else []⟩ : PulseSt).seg 1)),
            0 * 86400 - 10)
            :: (usOut (some 0) ⟨fun i => if i = 1 then [((2:ℚ), (5:ℚ))] else [(0, 0)],
                fun i => if i = 0 then [((7:ℚ), (40:ℚ))] else []⟩
              ++ usOut none ⟨fun i => if i = 1 then [((2:ℚ), (5:ℚ))] else [(0, 0)],
                fun i => if i = 0 then [((7:ℚ), (40:ℚ))] else []⟩))) := by
  have h := c10_transfer_list_framing 10 0 3 0 1 (some 0) none
    ⟨fun i => if i = 1 then [((2:ℚ), (5:ℚ))] else [(0, 0)],
     fun i => if i = 0 then [((7:ℚ), (40:ℚ))] else []⟩
  exact ⟨h.1, h.2.1 (by norm_num), h.2.2 (by norm_num [massSum, usOut])⟩

/-! ## Helper lemmas: the scenario routing branches -/

/-- In the transport-limited branch the export is the branch's export
base plus the pulse export, whatever sub-branch runs. -/
theorem scenarioCore_tlim_qsout (sh : SharedIn) (sc : ScenIn) (eb ql tr qsout : ℚ)
    (h : tr < supplyOf sh sc - qsout) :
    (scenarioCore sh sc eb ql tr qsout).qs_out = eb + qsout := by
  simp only [scenarioCore]
  rw [if_pos h]
  split_ifs <;> rfl

/-- In the transport-limited branch, outside the overbank sub-case, the
whole remainder of the supply deposits as channel storage. -/
theorem scenarioCore_tlim_store (sh : SharedIn) (sc : ScenIn) (eb ql tr qsout : ℚ)
    (h : tr < supplyOf sh sc - qsout) (hc : sh.confine = 1 ∨ sc.depth < sc.fp_thick) :
    (scenarioCore sh sc eb ql tr qsout).channel_store = supplyOf sh sc - (eb + qsout) := by
  simp only [scenarioCore]
  rw [if_pos h]
  rcases hc with hc | hc
  · rw [if_neg (by simp [hc])]
  · split_ifs <;> rfl

/-- With the dam override active the recorded export is zero. -/
theorem scenarioStep_dam (sh : SharedIn) (sc : ScenIn) (eb ql tr qsout : ℚ)
    (hd : damBreak sh = true) : (scenarioStep sh sc eb ql tr qsout).Qs_out = 0 := by
  simp [scenarioStep, hd]

/-- Without the dam override the recorded export is the branch export. -/
theorem scenarioStep_nodam (sh : SharedIn) (sc : ScenIn) (eb ql tr qsout : ℚ)
    (hd : damBreak sh = false) :
    (scenarioStep sh sc eb ql tr qsout).Qs_out = (scenarioCore sh sc eb ql tr qsout).qs_out := by
  simp [scenarioStep, hd]

/-- For a confined reach the stored floodplain thickness is not
rewritten. -/
theorem scenarioStep_fpt_confined (sh : SharedIn) (sc : ScenIn) (eb ql tr qsout : ℚ)
    (hconf : sh.confine = 1) :
    (scenarioStep sh sc eb ql tr qsout).fpt = sc.fpt_stored := by
  simp [scenarioStep, hconf]

/-- The low-scenario upstream input `ql` is read only in the unconfined
overbank capacity-limited sub-branch; outside it the branch results do
not depend on `ql`. -/
theorem scenarioCore_ql_irrel (sh : SharedIn) (sc : ScenIn) (eb tr qsout ql ql' : ℚ)
    (h : ¬ (tr > supplyOf sh sc - qsout ∧ sh.confine ≠ 1 ∧ ¬ sc.depth < sc.fp_thick)) :
    scenarioCore sh sc eb ql tr qsout = scenarioCore sh sc eb ql' tr qsout := by
  simp only [scenarioCore]
  split_ifs <;> try rfl
  exact absurd ⟨by assumption, by assumption, by assumption⟩ h

/-- The same, for the full scenario block. -/
theorem scenarioStep_ql_irrel (sh : SharedIn) (sc : ScenIn) (eb tr qsout ql ql' : ℚ)
    (h : ¬ (tr > supplyOf sh sc - qsout ∧ sh.confine ≠ 1 ∧ ¬ sc.depth < sc.fp_thick)) :
    scenarioStep sh sc eb ql tr qsout = scenarioStep sh sc eb ql' tr qsout := by
  unfold scenarioStep
  rw [scenarioCore_ql_irrel sh sc eb tr qsout ql ql' h]

/-- The recorded CSR of a scenario block. -/
theorem scenarioStep_csr (sh : SharedIn) (sc : ScenIn) (eb ql tr qsout : ℚ) :
    (scenarioStep sh sc eb ql tr qsout).CSR = (scenarioCore sh sc eb ql tr qsout).csr := rfl

/-! ## Claims about the reach mass-balance engine -/

/-- Claim C8: whenever the immediate downstream reach exists and has
strictly smaller effective drainage area, the recorded export is zero
in all three scenarios, regardless of supplies, capacities and the
branch taken (the override runs after every branch, lines 563-567,
685-688, 806-809). -/
theorem c8_dam_export_zero (sh : SharedIn) (scMin scMid scMax : ScenIn) (distActive : Bool)
    (vel : ℚ) (segid : ℕ) (us1 us2 : Option ℕ) (st : PulseSt) (v : ℚ)
    (hnext : sh.nextEffDA = some v) (hlt : v < sh.eff_DA) (r : ApplyRes)
    (hr : r = applyScenarios sh scMin scMid scMax distActive vel segid us1 us2 st) :
    r.minOut.Qs_out = 0 ∧ r.midOut.Qs_out = 0 ∧ r.maxOut.Qs_out = 0 := by
  subst hr
  have hd : damBreak sh = true := by simp [damBreak, hnext, hlt]
  simp only [applyScenarios]
  exact ⟨scenarioStep_dam _ _ _ _ _ _ hd, scenarioStep_dam _ _ _ _ _ _ hd,
    scenarioStep_dam _ _ _ _ _ _ hd⟩

/-- Witness for C8: the dam example reach (downstream effective
drainage area 1 < 2) exports zero in all three scenarios. -/
theorem c8_dam_export_zero_witness :
    (applyScenarios c8Sh exMinA exMid exMax true (11/864) 0 none none exSt).minOut.Qs_out = 0 ∧
    (applyScenarios c8Sh exMinA exMid exMax true (11/864) 0 none none exSt).midOut.Qs_out = 0 ∧
    (applyScenarios c8Sh exMinA exMid exMax true (11/864) 0 none none exSt).maxOut.Qs_out = 0 :=
  c8_dam_export_zero c8Sh exMinA exMid exMax true (11/864) 0 none none exSt 1
    (by norm_num [c8Sh, exSh]) (by norm_num [c8Sh, exSh]) _ rfl

/-- Counterexample to claim C9 as stated: for a confined reach in the
capacity-limited branch with nonzero previous channel storage,
apply_to_reach still rewrites the stored bed slope (lines 544-546 run
inside the confined branch): slope 1 becomes 0. -/
theorem c9_slope_written_when_confined :
    c9Sh.confine = 1 ∧ (scenarioStep c9Sh c9Sc 5 0 5 0).Slope = 0 ∧ c9Sc.S = 1 := by
  refine ⟨by norm_num [c9Sh], ?_, by norm_num [c9Sc]⟩
  norm_num [scenarioStep, scenarioCore, supplyOf, csrConv, damBreak, c9Sh, c9Sc]

/-- Claim C9 as amended: only the floodplain thickness is guarded by
confinement; for a confined reach the stored `fpt_min`, `fpt_mid` and
`fpt_max` are left unchanged by apply_to_reach (the bed slope, by
contrast, is updated even when confined). -/
theorem c9_fpt_unchanged_when_confined (sh : SharedIn) (scMin scMid scMax : ScenIn)
    (distActive : Bool) (vel : ℚ) (segid : ℕ) (us1 us2 : Option ℕ) (st : PulseSt)
    (hconf : sh.confine = 1) (r : ApplyRes)
    (hr : r = applyScenarios sh scMin scMid scMax distActive vel segid us1 us2 st) :
    r.minOut.fpt = scMin.fpt_stored ∧ r.midOut.fpt = scMid.fpt_stored ∧
    r.maxOut.fpt = scMax.fpt_stored := by
  subst hr
  simp only [applyScenarios]
  exact ⟨scenarioStep_fpt_confined _ _ _ _ _ _ hconf,
    scenarioStep_fpt_confined _ _ _ _ _ _ hconf,
    scenarioStep_fpt_confined _ _ _ _ _ _ hconf⟩

/-- Witness for the amended C9: the confined disturbance example keeps
all three stored floodplain thicknesses. -/
theorem c9_fpt_unchanged_when_confined_witness :
    (applyScenarios exSh exMinA exMid exMax true (11/864) 0 none none exSt).minOut.fpt
      = exMinA.fpt_stored ∧
    (applyScenarios exSh exMinA exMid exMax true (11/864) 0 none none exSt).midOut.fpt
      = exMid.fpt_stored ∧
    (applyScenarios exSh exMinA exMid exMax true (11/864) 0 none none exSt).maxOut.fpt
      = exMax.fpt_stored :=
  c9_fpt_unchanged_when_confined exSh exMinA exMid exMax true (11/864) 0 none none exSt
    (by norm_num [exSh]) _ rfl

/-- Counterexample to claim C7 as stated: in the capacity-limited
branch of an unconfined reach the CSR denominator also contains the
floodplain recruitment, so with supply 5, capacity 50 and recruitment
20 the recorded CSR is 50/(5+20) = 2, not capacity/supply = 10
(lines 535-541). -/
theorem c7_csr_includes_recruitment :
    supplyOf c7Sh c7Sc = 5 ∧ (scenarioStep c7Sh c7Sc 50 0 50 0).CSR = 2 ∧
    c7Sc.cap / supplyOf c7Sh c7Sc = 10 := by
  refine ⟨by norm_num [supplyOf, c7Sh, c7Sc], ?_, by norm_num [supplyOf, c7Sh, c7Sc]⟩
  norm_num [scenarioStep, scenarioCore, supplyOf, csrConv, damBreak, fp_recrBase, c7Sh, c7Sc]

/-- Claim C7 as amended: the recorded CSR is capacity over supply (with
the zero-denominator convention: capacity when positive, else 1) in the
transport-limited branch and in the confined capacity-limited branch;
in the unconfined capacity-limited branch the denominator additionally
contains the floodplain recruitment (adjusted in the overbank
sub-case); in the balanced branch the CSR is 1.  No division by zero
occurs: every division is guarded by the zero test of `csrConv`. -/
theorem c7_csr_branches (sh : SharedIn) (sc : ScenIn) (eb ql tr qsout : ℚ) :
    (tr < supplyOf sh sc - qsout →
      (scenarioStep sh sc eb ql tr qsout).CSR = csrConv sc.cap (supplyOf sh sc))
    ∧ (tr > supplyOf sh sc - qsout → sh.confine = 1 →
      (scenarioStep sh sc eb ql tr qsout).CSR = csrConv sc.cap (supplyOf sh sc))
    ∧ (tr > supplyOf sh sc - qsout → sh.confine ≠ 1 → sc.depth < sc.fp_thick →
      (scenarioStep sh sc eb ql tr qsout).CSR
        = csrConv sc.cap (supplyOf sh sc + fp_recrBase sh sc))
    ∧ (tr > supplyOf sh sc - qsout → sh.confine ≠ 1 → ¬ sc.depth < sc.fp_thick →
      (scenarioStep sh sc eb ql tr qsout).CSR
        = csrConv sc.cap (supplyOf sh sc + fp_recrAdj sh sc ql))
    ∧ (tr = supplyOf sh sc - qsout → (scenarioStep sh sc eb ql tr qsout).CSR = 1) := by
  refine ⟨fun h1 => ?_, fun h1 h2 => ?_, fun h1 h2 h3 => ?_, fun h1 h2 h3 => ?_, fun h1 => ?_⟩
  all_goals rw [scenarioStep_csr]
  all_goals simp only [scenarioCore]
  · rw [if_pos h1]
    split_ifs <;> rfl
  · rw [if_neg (by linarith), if_pos h1, if_neg (by simp [h2])]
  · rw [if_neg (by linarith), if_pos h1, if_pos h2, if_pos h3]
  · rw [if_neg (by linarith), if_pos h1, if_pos h2, if_neg h3]
  · rw [if_neg (by linarith), if_neg (by linarith)]

/-- Witness for the amended C7: in the transport-limited branch of the
recruitment example (remaining capacity 0 below the supply of 5) the
recorded CSR is capacity over supply. -/
theorem c7_csr_branches_witness :
    (0:ℚ) < supplyOf c7Sh c7Sc - 0 ∧
    (scenarioStep c7Sh c7Sc 0 0 0 0).CSR = csrConv c7Sc.cap (supplyOf c7Sh c7Sc) := by
  constructor
  · norm_num [supplyOf, c7Sh, c7Sc]
  · exact (c7_csr_branches c7Sh c7Sc 0 0 0 0).1 (by norm_num [supplyOf, c7Sh, c7Sc])

/-- The recorded channel storage of a scenario block is the branch
channel storage. -/
theorem scenarioStep_store (sh : SharedIn) (sc : ScenIn) (eb ql tr qsout : ℚ) :
    (scenarioStep sh sc eb ql tr qsout).Store_chan
      = (scenarioCore sh sc eb ql tr qsout).channel_store := rfl

/-- Counterexample to claim C6 as stated: in the transport-limited
case the low-scenario export is `transport_rem_min + qsout_min`
(line 472), not capacity plus pulse export.  In the disturbance
example the low capacity 4 is fully consumed by the pulse
(`qsout_min = 4`, remaining capacity 0), the guard `0 < 10 - 4` holds,
and the recorded low export is 4, not `cap_min + qsout_min = 8`. -/
theorem c6_low_export_not_capacity_plus_pulse :
    (applyScenarios exSh exMinA exMid exMax true (11/864) 0 none none exSt).qsout_min = 4 ∧
    (applyScenarios exSh exMinA exMid exMax true (11/864) 0 none none exSt).tr_min = 0 ∧
    (applyScenarios exSh exMinA exMid exMax true (11/864) 0 none none exSt).tr_min
      < supplyOf exSh exMinA
        - (applyScenarios exSh exMinA exMid exMax true (11/864) 0 none none exSt).qsout_min ∧
    (applyScenarios exSh exMinA exMid exMax true (11/864) 0 none none exSt).minOut.Qs_out = 4 ∧
    (applyScenarios exSh exMinA exMid exMax true (11/864) 0 none none exSt).minOut.Qs_out
      ≠ exMinA.cap
        + (applyScenarios exSh exMinA exMid exMax true (11/864) 0 none none exSt).qsout_min := by
  norm_num [applyScenarios, update_seg_dict, pulse_propagate, ppLoop, scenarioStep,
    scenarioCore, supplyOf, csrConv, damBreak, fp_recrBase, fp_recrAdj, fpRatio, massSum,
    usOut, exSh, exMinA, exMid, exMax, exSt, Function.update, List.insertionSort,
    List.orderedInsert]

/-- Claim C6 as amended: in the transport-limited case the recorded
export (absent the dam override) is capacity plus pulse export for the
mid and high scenarios, but remaining capacity (after pulse
propagation) plus pulse export for the low scenario; in each scenario
the remainder of the supply deposits as channel storage outside the
unconfined overbank sub-case (where it is split with the
floodplain). -/
theorem c6_transport_limited_exports (sh : SharedIn) (scMin scMid scMax : ScenIn)
    (distActive : Bool) (vel : ℚ) (segid : ℕ) (us1 us2 : Option ℕ) (st : PulseSt)
    (hdam : damBreak sh = false) (r : ApplyRes)
    (hr : r = applyScenarios sh scMin scMid scMax distActive vel segid us1 us2 st) :
    (r.tr_min < supplyOf sh scMin - r.qsout_min →
      r.minOut.Qs_out = r.tr_min + r.qsout_min)
    ∧ (r.tr_mid < supplyOf sh scMid - r.qsout_mid →
      r.midOut.Qs_out = scMid.cap + r.qsout_mid)
    ∧ (r.tr_max < supplyOf sh scMax - r.qsout_max →
      r.maxOut.Qs_out = scMax.cap + r.qsout_max)
    ∧ (r.tr_min < supplyOf sh scMin - r.qsout_min →
      sh.confine = 1 ∨ scMin.depth < scMin.fp_thick →
      r.minOut.Store_chan = supplyOf sh scMin - r.minOut.Qs_out)
    ∧ (r.tr_mid < supplyOf sh scMid - r.qsout_mid →
      sh.confine = 1 ∨ scMid.depth < scMid.fp_thick →
      r.midOut.Store_chan = supplyOf sh scMid - r.midOut.Qs_out)
    ∧ (r.tr_max < supplyOf sh scMax - r.qsout_max →
      sh.confine = 1 ∨ scMax.depth < scMax.fp_thick →
      r.maxOut.Store_chan = supplyOf sh scMax - r.maxOut.Qs_out) := by
  subst hr
  simp only [applyScenarios]
  refine ⟨fun h => ?_, fun h => ?_, fun h => ?_, fun h hc => ?_, fun h hc => ?_,
    fun h hc => ?_⟩
  all_goals rw [scenarioStep_nodam _ _ _ _ _ _ hdam]
  · exact scenarioCore_tlim_qsout _ _ _ _ _ _ h
  · exact scenarioCore_tlim_qsout _ _ _ _ _ _ h
  · exact scenarioCore_tlim_qsout _ _ _ _ _ _ h
  all_goals rw [scenarioStep_store, scenarioCore_tlim_store _ _ _ _ _ _ h hc,
    scenarioCore_tlim_qsout _ _ _ _ _ _ h]

/-- Witness for the amended C6: in the disturbance example all three
scenarios are transport-limited and confined, and the export and
channel-storage formulas hold with the stated scenario asymmetry. -/
theorem c6_transport_limited_exports_witness :
    ((applyScenarios exSh exMinA exMid exMax true (11/864) 0 none none exSt).minOut.Qs_out
      = (applyScenarios exSh exMinA exMid exMax true (11/864) 0 none none exSt).tr_min
        + (applyScenarios exSh exMinA exMid exMax true (11/864) 0 none none exSt).qsout_min)
    ∧ ((applyScenarios exSh exMinA exMid exMax true (11/864) 0 none none exSt).midOut.Qs_out
      = exMid.cap
        + (applyScenarios exSh exMinA exMid exMax true (11/864) 0 none none exSt).qsout_mid)
    ∧ ((applyScenarios exSh exMinA exMid exMax true (11/864) 0 none none exSt).midOut.Store_chan
      = supplyOf exSh exMid
        - (applyScenarios exSh exMinA exMid exMax true (11/864) 0 none none exSt).midOut.Qs_out) := by
  have h := c6_transport_limited_exports exSh exMinA exMid exMax true (11/864) 0 none none exSt
    (by norm_num [damBreak, exSh]) _ rfl
  refine ⟨h.1 ?_, h.2.1 ?_, h.2.2.2.2.1 ?_ (Or.inl (by norm_num [exSh]))⟩
  all_goals norm_num [applyScenarios, update_seg_dict, pulse_propagate, ppLoop, massSum,
    usOut, supplyOf, exSh, exMinA, exMid, exMax, exSt, Function.update, List.insertionSort,
    List.orderedInsert]

/-- Counterexample to claim C3 as stated: mid-scenario outputs are not
independent of the low scenario.  The two runs below differ only in
the low-scenario transport capacity (4 vs 0); because pulse
propagation runs sequentially low, high, mid over the shared ledger
(lines 454-456), the mid pulse export changes and the recorded
mid-scenario export changes from 5 to 9. -/
theorem c3_mid_depends_on_low_capacity :
    exMinB = { exMinA with cap := 0 } ∧
    (applyScenarios exSh exMinA exMid exMax true (11/864) 0 none none exSt).midOut.Qs_out = 5 ∧
    (applyScenarios exSh exMinB exMid exMax true (11/864) 0 none none exSt).midOut.Qs_out = 9 := by
  refine ⟨rfl, ?_, ?_⟩
  all_goals norm_num [applyScenarios, update_seg_dict, pulse_propagate, ppLoop, scenarioStep,
    scenarioCore, supplyOf, csrConv, damBreak, fp_recrBase, fp_recrAdj, fpRatio, massSum,
    usOut, exSh, exMinA, exMinB, exMid, exMax, exSt, Function.update, List.insertionSort,
    List.orderedInsert]

/-- Claim C3 as amended: mid-scenario outputs depend only on the shared
and mid-scenario inputs provided no disturbance pulse is active (the
sequential pulse propagation over the shared ledger couples the
scenarios) and the mid scenario is not in the unconfined overbank
capacity-limited sub-branch (which reads the low-scenario upstream
input, line 645).  Under those two conditions, runs that agree on the
shared and mid inputs produce identical mid-scenario outputs, whatever
their low and high inputs and pulse state. -/
theorem c3_mid_isolated_without_disturbance (sh : SharedIn) (scMid : ScenIn)
    (scMin scMax scMin2 scMax2 : ScenIn) (vel vel2 : ℚ) (segid segid2 : ℕ)
    (us1 us2 us3 us4 : Option ℕ) (st st2 : PulseSt)
    (hnb : ¬ (scMid.cap > supplyOf sh scMid ∧ sh.confine ≠ 1 ∧ ¬ scMid.depth < scMid.fp_thick)) :
    (applyScenarios sh scMin scMid scMax false vel segid us1 us2 st).midOut
      = (applyScenarios sh scMin2 scMid scMax2 false vel2 segid2 us3 us4 st2).midOut := by
  simp only [applyScenarios, Bool.false_eq_true, if_false]
  exact scenarioStep_ql_irrel sh scMid scMid.cap scMid.cap 0 scMin.qs_us scMin2.qs_us
    (by simpa using hnb)

/-- Witness for the amended C3: with no active disturbance on the
confined example reach, two runs with different low/high inputs and
different pulse state give the same mid-scenario row. -/
theorem c3_mid_isolated_without_disturbance_witness :
    (applyScenarios exSh exMinA exMid exMax false (11/864) 0 none none exSt).midOut
      = (applyScenarios exSh exMinB exMid exMid false 3 7 (some 2) none
          ⟨fun _ => [((3:ℚ), (7:ℚ))], fun _ => [((1:ℚ), (2:ℚ))]⟩).midOut :=
  c3_mid_isolated_without_disturbance exSh exMid exMinA exMax exMinB exMid (11/864) 3 0 7
    none none (some 2) none exSt ⟨fun _ => [((3:ℚ), (7:ℚ))], fun _ => [((1:ℚ), (2:ℚ))]⟩
    (by norm_num [exSh])

/-! ## Helper lemmas: the traversal scheduler -/

/-- Permuting a list of lists permutes its flattening. -/
theorem flatten_perm_of_perm {α : Type} {l1 l2 : List (List α)} (h : l1.Perm l2) :
    l1.flatten.Perm l2.flatten := by
  induction h with
  | nil => rfl
  | cons x h ih => simpa using ih.append_left x
  | swap x y l =>
      simp only [List.flatten_cons, ← List.append_assoc]
      exact (List.perm_append_comm).append_right l.flatten
  | trans h1 h2 ih1 ih2 => exact ih1.trans ih2

/-- Every nonempty list of naturals has an element of minimal image. -/
theorem exists_min_image_list (f : ℕ → ℕ) :
    ∀ {l : List ℕ}, l ≠ [] → ∃ a ∈ l, ∀ b ∈ l, f a ≤ f b := by
  intro l
  induction l with
  | nil => intro h; exact absurd rfl h
  | cons x xs ih =>
      intro _
      rcases eq_or_ne xs [] with hxs | hxs
      · exact ⟨x, List.mem_cons_self x xs, by simp [hxs]⟩
      · obtain ⟨a, ha, hmin⟩ := ih hxs
        rcases le_total (f x) (f a) with hle | hle
        · exact ⟨x, List.mem_cons_self x xs, by
            intro b hb
            rcases List.mem_cons.mp hb with rfl | hb
            · exact le_rfl
            · exact hle.trans (hmin b hb)⟩
        · exact ⟨a, List.mem_cons_of_mem x ha, by
            intro b hb
            rcases List.mem_cons.mp hb with rfl | hb
            · exact hle
            · exact hmin b hb⟩

/-- Removing an element that is in a duplicate-free sublist `p` of
`pend` moves it from the kept side of the filter to the dropped side:
the reaches of `pend` outside `p.erase x` are, up to permutation, `x`
together with the reaches of `pend` outside `p`. -/
theorem filter_erase_perm {p : List ℕ} {x : ℕ} (hpnd : p.Nodup) (hxp : x ∈ p) :
    ∀ {pend : List ℕ}, pend.Nodup → x ∈ pend →
      (pend.filter (fun c => decide (c ∉ p.erase x))).Perm
        (x :: pend.filter (fun c => decide (c ∉ p))) := by
  intro pend
  induction pend with
  | nil => intro _ hx; exact absurd hx (List.not_mem_nil x)
  | cons a l ih =>
      intro hnd hx
      have hal : a ∉ l := (List.nodup_cons.mp hnd).1
      have hlnd : l.Nodup := (List.nodup_cons.mp hnd).2
      rcases List.mem_cons.mp hx with rfl | hxl
      · have hkeep : x ∉ p.erase x := fun hmem =>
          ((List.Nodup.mem_erase_iff hpnd).mp hmem).1 rfl
        have hcong : l.filter (fun c => decide (c ∉ p.erase x))
            = l.filter (fun c => decide (c ∉ p)) := by
          apply List.filter_congr
          intro c hc
          have hca : c ≠ x := fun hca => hal (hca ▸ hc)
          simp only [decide_eq_decide]
          rw [List.mem_erase_of_ne hca]
        rw [List.filter_cons, List.filter_cons, if_pos (by simpa using hkeep),
          if_neg (by simpa using hxp), hcong]
      · have hax : a ≠ x := fun h => hal (h ▸ hxl)
        have hiff : (a ∉ p.erase x) ↔ (a ∉ p) := by
          rw [List.mem_erase_of_ne hax]
        by_cases hap : a ∈ p
        · have h1 : ¬ (decide (a ∉ p.erase x) = true) := by
            simp only [decide_eq_true_eq]
            rw [hiff]
            exact fun hcon => hcon hap
          have h2 : ¬ (decide (a ∉ p) = true) := by
            simp only [decide_eq_true_eq]
            exact fun hcon => hcon hap
          rw [List.filter_cons, List.filter_cons, if_neg h1, if_neg h2]
          exact ih hlnd hxl
        · have h1 : decide (a ∉ p.erase x) = true := by
            simp only [decide_eq_true_eq]
            rw [hiff]
            exact hap
          have h2 : decide (a ∉ p) = true := by
            simp only [decide_eq_true_eq]
            exact hap
          rw [List.filter_cons, List.filter_cons, if_pos h1, if_pos h2]
          exact ((ih hlnd hxl).cons a).trans (List.Perm.swap x a _)

/-- Every element of a chain is its head or a non-confluence reach
(the walk stops before any confluence). -/
theorem chainFrom_nonconf (N : SchedNet) :
    ∀ (fuel r : ℕ), ∀ y ∈ chainFrom N fuel r, y = r ∨ N.conf y = false := by
  intro fuel
  induction fuel with
  | zero => intro r y hy; simp [chainFrom] at hy
  | succ f ih =>
      intro r y hy
      simp only [chainFrom] at hy
      rcases List.mem_cons.mp hy with rfl | hy
      · exact Or.inl rfl
      · cases hdown : N.down r with
        | none => simp only [hdown] at hy; simp at hy
        | some m =>
            simp only [hdown] at hy
            by_cases hm : N.conf m
            · rw [if_pos hm] at hy; simp at hy
            · rw [if_neg hm] at hy
              rcases ih m y hy with rfl | hconf
              · exact Or.inr (by simpa using hm)
              · exact Or.inr hconf

/-- Along a chain whose head is in range, ranks never drop below the
head's rank and every element stays in range. -/
theorem chainFrom_rank (N : SchedNet) (hdown : ∀ r < N.n, downOK N r = true) :
    ∀ (fuel r : ℕ), r < N.n → ∀ y ∈ chainFrom N fuel r, N.rank r ≤ N.rank y ∧ y < N.n := by
  intro fuel
  induction fuel with
  | zero => intro r _ y hy; simp [chainFrom] at hy
  | succ f ih =>
      intro r hr y hy
      simp only [chainFrom] at hy
      rcases List.mem_cons.mp hy with rfl | hy
      · exact ⟨le_rfl, hr⟩
      · cases hdw : N.down r with
        | none => simp only [hdw] at hy; simp at hy
        | some m =>
            simp only [hdw] at hy
            by_cases hm : N.conf m
            · rw [if_pos hm] at hy; simp at hy
            · rw [if_neg hm] at hy
              have hok := hdown r hr
              rw [downOK, hdw] at hok
              simp only [Bool.and_eq_true, decide_eq_true_eq] at hok
              obtain ⟨hrank, hmn⟩ := hok
              obtain ⟨h1, h2⟩ := ih m hmn y hy
              exact ⟨(le_of_lt hrank).trans h1, h2⟩

/-- The trace of a chain walk is the chain appended to the old trace. -/
theorem walkChain_trace (N : SchedNet) (val : ℕ → ℚ) :
    ∀ (fuel r : ℕ) (st : DaySt),
      (walkChain N val fuel r st).trace = st.trace ++ chainFrom N fuel r := by
  intro fuel
  induction fuel with
  | zero => intro r st; simp [walkChain, chainFrom]
  | succ f ih =>
      intro r st
      simp only [walkChain, chainFrom]
      cases hdw : N.down r with
      | none => simp [visit]
      | some m =>
          by_cases hm : N.conf m
          · simp [hm, visit]
          · simp only [hm, if_false, Bool.false_eq_true]
            rw [ih m (visit val r st)]
            simp [visit]

/-- Visiting preserves the correspondence between non-sentinel exports
and trace membership, as long as the written value is not the
sentinel. -/
theorem visit_qsIff (val : ℕ → ℚ) (hval : ∀ r, val r ≠ sentinel) (r : ℕ) (st : DaySt)
    (h : ∀ x, st.qsOutMid x ≠ sentinel ↔ x ∈ st.trace) :
    ∀ x, (visit val r st).qsOutMid x ≠ sentinel ↔ x ∈ (visit val r st).trace := by
  intro x
  simp only [visit, List.mem_append, List.mem_singleton]
  rcases eq_or_ne x r with rfl | hxr
  · simp [Function.update_same, hval x]
  · rw [Function.update_noteq hxr]
    simp [h x, hxr]

/-- Chain walks preserve the export/trace correspondence. -/
theorem walkChain_qsIff (N : SchedNet) (val : ℕ → ℚ) (hval : ∀ r, val r ≠ sentinel) :
    ∀ (fuel r : ℕ) (st : DaySt),
      (∀ x, st.qsOutMid x ≠ sentinel ↔ x ∈ st.trace) →
      ∀ x, (walkChain N val fuel r st).qsOutMid x ≠ sentinel
        ↔ x ∈ (walkChain N val fuel r st).trace := by
  intro fuel
  induction fuel with
  | zero => intro r st h x; simpa [walkChain] using h x
  | succ f ih =>
      intro r st h x
      simp only [walkChain]
      cases N.down r with
      | none => exact visit_qsIff val hval r st h x
      | some m =>
          by_cases hm : N.conf m
          · simp only [hm, if_true]
            exact visit_qsIff val hval r st h x
          · simp only [hm, if_false, Bool.false_eq_true]
            exact ih m (visit val r st) (visit_qsIff val hval r st h) x

/-- A trace containing no confluence is trivially dependency-ordered. -/
theorem ordInv_of_no_conf (N : SchedNet) {t : List ℕ}
    (h : ∀ c ∈ t, N.conf c = false) : ordInv N t := by
  intro c hc pre post hdecomp
  have : c ∈ t := by rw [hdecomp]; exact List.mem_append_right pre (List.mem_cons_self c post)
  rw [h c this] at hc
  cases hc

/-- Appending a block whose confluences already have both upstream
reaches in the trace preserves dependency order. -/
theorem ordInv_append (N : SchedNet) {t l : List ℕ} (ht : ordInv N t)
    (hl : ∀ c ∈ l, N.conf c = true → N.us1 c ∈ t ∧ N.us2 c ∈ t) :
    ordInv N (t ++ l) := by
  intro c hc pre post hdecomp
  rcases List.append_eq_append_iff.mp hdecomp.symm with ⟨a, ha1, ha2⟩ | ⟨a, ha1, ha2⟩
  · -- the split point is inside t (or exactly at its end)
    cases a with
    | nil =>
        rw [List.append_nil] at ha1
        rw [List.nil_append] at ha2
        have hcl : c ∈ l := by rw [← ha2]; exact List.mem_cons_self c post
        obtain ⟨h1, h2⟩ := hl c hcl hc
        rw [ha1] at h1 h2
        exact ⟨h1, h2⟩
    | cons b a' =>
        have hb : b = c := by
          have := congrArg (fun s => s.head?) ha2
          simpa using this.symm
        rw [hb] at ha1
        exact ht c hc pre a' ha1
  · -- c lies within the appended block l
    have hcl : c ∈ l := by rw [ha2]; exact List.mem_append_right a (List.mem_cons_self c post)
    obtain ⟨h1, h2⟩ := hl c hcl hc
    rw [ha1]
    exact ⟨List.mem_append_left a h1, List.mem_append_left a h2⟩

/-- Processing an unblocked pending confluence preserves the loop
invariant, with the confluence removed from the pending list. -/
theorem process_inv (N : SchedNet) (val : ℕ → ℚ) (hwf : SchedWF N)
    (hval : ∀ r, val r ≠ sentinel) {p : List ℕ} {st : DaySt} (hInv : Inv N p st) {x : ℕ}
    (hx : x ∈ p) (hbl : blocked N st x = false) :
    Inv N (p.erase x) (walkChain N val N.n x st) := by
  obtain ⟨hsub, hqs, hord, hperm⟩ := hInv
  obtain ⟨hnd, hfo, hpend, hdown, hcover⟩ := hwf
  have hxpend : x ∈ N.pending0 := hsub.subset hx
  have hconfx : N.conf x = true := (hpend x hxpend).1
  have hb := hbl
  simp only [blocked, Bool.or_eq_false_iff, decide_eq_false_iff_not] at hb
  have hu1t : N.us1 x ∈ st.trace := (hqs _).mp hb.1
  have hu2t : N.us2 x ∈ st.trace := (hqs _).mp hb.2
  refine ⟨(List.erase_sublist x p).trans hsub, walkChain_qsIff N val hval _ _ _ hqs, ?_, ?_⟩
  · rw [walkChain_trace]
    apply ordInv_append N hord
    intro c hc hcconf
    rcases chainFrom_nonconf N N.n x c hc with rfl | hfalse
    · exact ⟨hu1t, hu2t⟩
    · rw [hcconf] at hfalse
      cases hfalse
  · rw [walkChain_trace]
    have hpnd : p.Nodup := List.Nodup.sublist hsub hnd
    have hfilter := filter_erase_perm hpnd hx hnd hxpend
    have hmapped : ((N.pending0.filter (fun c => decide (c ∉ p.erase x))).map
        (chainFrom N N.n)).flatten.Perm
        (chainFrom N N.n x
          ++ ((N.pending0.filter (fun c => decide (c ∉ p))).map (chainFrom N N.n)).flatten) := by
      have h1 := flatten_perm_of_perm (hfilter.map (chainFrom N N.n))
      simpa using h1
    have hperm2 : st.trace.Perm
        ((N.foHeads.map (chainFrom N N.n)).flatten
          ++ ((N.pending0.filter (fun c => decide (c ∉ p))).map (chainFrom N N.n)).flatten) := by
      have h := hperm
      rwa [List.map_append, List.flatten_append] at h
    rw [List.map_append, List.flatten_append]
    refine List.Perm.trans (hperm2.append_right _) ?_
    rw [List.append_assoc]
    apply List.Perm.append_left
    exact List.perm_append_comm.trans hmapped.symm

/-- A full sweep of the pending list preserves the invariant, never
grows the list, and strictly shrinks it whenever some confluence at or
after the starting position is unblocked. -/
theorem scanFrom_spec (N : SchedNet) (val : ℕ → ℚ) (hwf : SchedWF N)
    (hval : ∀ r, val r ≠ sentinel) :
    ∀ (k i : ℕ) (p : List ℕ) (st : DaySt), p.length - i ≤ k → Inv N p st →
      Inv N (scanFrom N val i p st).1 (scanFrom N val i p st).2 ∧
      (scanFrom N val i p st).1.Sublist p ∧
      ((∃ c ∈ p.drop i, blocked N st c = false) →
        (scanFrom N val i p st).1.length < p.length) := by
  intro k
  induction k with
  | zero =>
      intro i p st hk hInv
      have hni : ¬ i < p.length := by omega
      rw [scanFrom, dif_neg hni]
      refine ⟨hInv, List.Sublist.refl p, ?_⟩
      rintro ⟨c, hc, -⟩
      rw [List.drop_eq_nil_of_le (by omega)] at hc
      exact absurd hc (List.not_mem_nil c)
  | succ k ih =>
      intro i p st hk hInv
      by_cases hlt : i < p.length
      · rw [scanFrom, dif_pos hlt]
        by_cases hbl : blocked N st (p.get ⟨i, hlt⟩)
        · rw [if_pos hbl]
          have hrec := ih (i + 1) p st (by omega) hInv
          refine ⟨hrec.1, hrec.2.1, ?_⟩
          rintro ⟨c, hc, hcbl⟩
          apply hrec.2.2
          refine ⟨c, ?_, hcbl⟩
          have hdropeq : p.drop i = p.get ⟨i, hlt⟩ :: p.drop (i + 1) := by
            rw [List.get_eq_getElem]
            exact (List.getElem_cons_drop p i hlt).symm
          rw [hdropeq] at hc
          rcases List.mem_cons.mp hc with rfl | hc
          · rw [hbl] at hcbl
            cases hcbl
          · exact hc
        · rw [if_neg hbl]
          have hxmem : p.get ⟨i, hlt⟩ ∈ p := p.get_mem _ _
          have hInv2 : Inv N (p.erase (p.get ⟨i, hlt⟩))
              (walkChain N val N.n (p.get ⟨i, hlt⟩) st) :=
            process_inv N val hwf hval ⟨hInv.1, hInv.2.1, hInv.2.2.1, hInv.2.2.2⟩ hxmem
              (by simpa using hbl)
          have hlen : (p.erase (p.get ⟨i, hlt⟩)).length = p.length - 1 :=
            List.length_erase_of_mem hxmem
          have hrec := ih (i + 1) (p.erase (p.get ⟨i, hlt⟩))
            (walkChain N val N.n (p.get ⟨i, hlt⟩) st) (by omega) hInv2
          refine ⟨hrec.1, hrec.2.1.trans (List.erase_sublist _ p), fun _ => ?_⟩
          have := hrec.2.1.length_le
          omega
      · rw [scanFrom, dif_neg hlt]
        refine ⟨hInv, List.Sublist.refl p, ?_⟩
        rintro ⟨c, hc, -⟩
        rw [List.drop_eq_nil_of_le (by omega)] at hc
        exact absurd hc (List.not_mem_nil c)

/-- The first-order pass appends the first-order chains, in order, to
the trace. -/
theorem firstOrderPass_trace (N : SchedNet) (val : ℕ → ℚ) :
    ∀ (hs : List ℕ) (st : DaySt),
      (firstOrderPass N val hs st).trace
        = st.trace ++ (hs.map (chainFrom N N.n)).flatten := by
  intro hs
  induction hs with
  | nil => intro st; simp [firstOrderPass]
  | cons h rest ih =>
      intro st
      simp only [firstOrderPass]
      rw [ih, walkChain_trace]
      simp [List.append_assoc]

/-- The first-order pass preserves the export/trace correspondence. -/
theorem firstOrderPass_qsIff (N : SchedNet) (val : ℕ → ℚ) (hval : ∀ r, val r ≠ sentinel) :
    ∀ (hs : List ℕ) (st : DaySt), (∀ x, st.qsOutMid x ≠ sentinel ↔ x ∈ st.trace) →
      ∀ x, (firstOrderPass N val hs st).qsOutMid x ≠ sentinel
        ↔ x ∈ (firstOrderPass N val hs st).trace := by
  intro hs
  induction hs with
  | nil => intro st h x; simpa [firstOrderPass] using h x
  | cons hd rest ih =>
      intro st h x
      simp only [firstOrderPass]
      exact ih (walkChain N val N.n hd st) (walkChain_qsIff N val hval N.n hd st h) x

/-- On a well-formed network, a nonempty pending list satisfying the
loop invariant always contains an unblocked confluence: any pending
confluence of minimal rank has both upstream chains already fully
evaluated. -/
theorem exists_unblocked (N : SchedNet) (hwf : SchedWF N) {p : List ℕ} {st : DaySt}
    (hInv : Inv N p st) (hp : p ≠ []) : ∃ c ∈ p, blocked N st c = false := by
  obtain ⟨hsub, hqs, hord, hperm⟩ := hInv
  obtain ⟨hnd, hfo, hpend, hdown, hcover⟩ := hwf
  obtain ⟨c, hcp, hcmin⟩ := exists_min_image_list N.rank hp
  have hcpend : c ∈ N.pending0 := hsub.subset hcp
  obtain ⟨hcconf, hcn, hu1n, hu2n, hne, hd1, hd2⟩ := hpend c hcpend
  have htracechain : ∀ h', h' ∈ N.foHeads ++ N.pending0.filter (fun a => decide (a ∉ p)) →
      ∀ u ∈ chainFrom N N.n h', u ∈ st.trace := by
    intro h' hh' u hu
    apply hperm.mem_iff.mpr
    exact List.mem_flatten.mpr ⟨chainFrom N N.n h',
      List.mem_map.mpr ⟨h', hh', rfl⟩, hu⟩
  have htrace : ∀ u : ℕ, u < N.n → N.down u = some c → u ∈ st.trace := by
    intro u hun hdu
    have humem : u ∈ (List.map (chainFrom N N.n) (N.foHeads ++ N.pending0)).flatten :=
      hcover.symm.subset (List.mem_range.mpr hun)
    obtain ⟨L, hL, huL⟩ := List.mem_flatten.mp humem
    obtain ⟨h, hh, rfl⟩ := List.mem_map.mp hL
    rcases List.mem_append.mp hh with hhfo | hhpend
    · exact htracechain h (List.mem_append_left _ hhfo) u huL
    · by_cases hhp : h ∈ p
      · exfalso
        have hhn : h < N.n := (hpend h hhpend).2.1
        have hr1 : N.rank h ≤ N.rank u := (chainFrom_rank N hdown N.n h hhn u huL).1
        have hr2 : N.rank u < N.rank c := by
          have hok := hdown u hun
          rw [downOK, hdu] at hok
          simp only [Bool.and_eq_true, decide_eq_true_eq] at hok
          exact hok.1
        have hr3 : N.rank c ≤ N.rank h := hcmin h hhp
        omega
      · refine htracechain h (List.mem_append_right _ ?_) u huL
        exact List.mem_filter.mpr ⟨hhpend, by simpa using hhp⟩
  have hq1 : st.qsOutMid (N.us1 c) ≠ sentinel := (hqs _).mpr (htrace (N.us1 c) hu1n hd1)
  have hq2 : st.qsOutMid (N.us2 c) ≠ sentinel := (hqs _).mpr (htrace (N.us2 c) hu2n hd2)
  exact ⟨c, hcp, by simp [blocked, hq1, hq2]⟩

/-- With fuel at least the pending-list length, run_below_confluences
empties the list while maintaining the invariant. -/
theorem runBelow_ok (N : SchedNet) (val : ℕ → ℚ) (hwf : SchedWF N)
    (hval : ∀ r, val r ≠ sentinel) :
    ∀ (fuel : ℕ) (p : List ℕ) (st : DaySt), Inv N p st → p.length ≤ fuel →
      ∃ st', runBelow N val fuel p st = some st' ∧ Inv N [] st' := by
  intro fuel
  induction fuel with
  | zero =>
      intro p st hInv hlen
      have hp : p = [] := List.length_eq_zero.mp (Nat.le_zero.mp hlen)
      subst hp
      exact ⟨st, by rw [runBelow]; simp, hInv⟩
  | succ fuel ih =>
      intro p st hInv hlen
      by_cases hp : p = []
      · subst hp
        exact ⟨st, by rw [runBelow]; simp, hInv⟩
      · obtain ⟨c, hc, hcbl⟩ := exists_unblocked N hwf hInv hp
        have hspec := scanFrom_spec N val hwf hval p.length 0 p st (by omega) hInv
        have hprog : (scanFrom N val 0 p st).1.length < p.length :=
          hspec.2.2 ⟨c, by simpa using hc, hcbl⟩
        obtain ⟨st', hrun, hinv'⟩ := ih (scanFrom N val 0 p st).1 (scanFrom N val 0 p st).2
          hspec.1 (by omega)
        refine ⟨st', ?_, hinv'⟩
        rw [runBelow, if_neg hp]
        exact hrun

/-- Claim C1: on every well-formed finite tree network, one day of the
scheduler (run_first_order followed by run_below_confluences, with
every export reset to the sentinel at the start of the day) invokes
apply_to_reach on every one of the N reaches exactly once — the trace
is a permutation of all reach ids — and whenever a confluence is
invoked, both of its upstream reaches appear strictly earlier in the
trace, i.e. both already carry a non-sentinel export for the day
(apply_to_reach writes `val r ≠ -9999`). -/
theorem c1_scheduler_each_reach_once (N : SchedNet) (val : ℕ → ℚ)
    (hwf : SchedWF N) (hval : ∀ r, val r ≠ sentinel) :
    ∃ st', runDay N val = some st' ∧ st'.trace.Perm (List.range N.n) ∧
      ∀ c ∈ N.pending0, ∀ pre post, st'.trace = pre ++ c :: post →
        N.us1 c ∈ pre ∧ N.us2 c ∈ pre := by
  obtain ⟨hnd, hfo, hpend, hdown, hcover⟩ := hwf
  have hInv0 : Inv N N.pending0 (firstOrderPass N val N.foHeads initSt) := by
    refine ⟨List.Sublist.refl _, ?_, ?_, ?_⟩
    · exact firstOrderPass_qsIff N val hval N.foHeads initSt
        (fun x => by simp [initSt])
    · apply ordInv_of_no_conf
      intro c hc
      rw [firstOrderPass_trace] at hc
      simp only [initSt, List.nil_append] at hc
      obtain ⟨L, hL, hcL⟩ := List.mem_flatten.mp hc
      obtain ⟨h, hh, rfl⟩ := List.mem_map.mp hL
      rcases chainFrom_nonconf N N.n h c hcL with rfl | hfalse
      · exact (hfo c hh).1
      · exact hfalse
    · rw [firstOrderPass_trace]
      simp only [initSt, List.nil_append]
      have hfilter : N.pending0.filter (fun c => decide (c ∉ N.pending0)) = [] := by
        apply List.filter_eq_nil_iff.mpr
        intro c hcp
        simpa using hcp
      rw [hfilter, List.append_nil]
  obtain ⟨st', hrun, hsub', hqs', hord', hperm'⟩ :=
    runBelow_ok N val ⟨hnd, hfo, hpend, hdown, hcover⟩ hval N.pending0.length N.pending0
      (firstOrderPass N val N.foHeads initSt) hInv0 le_rfl
  refine ⟨st', hrun, ?_, ?_⟩
  · have hfilter : N.pending0.filter (fun c => decide (c ∉ ([] : List ℕ))) = N.pending0 := by
      apply List.filter_eq_self.mpr
      intro c hcp
      simp
    rw [hfilter] at hperm'
    exact hperm'.trans hcover
  · intro c hcp pre post hdecomp
    exact hord' c (hpend c hcp).1 pre post hdecomp

/-- Witness for C1: on the three-reach tree (headwaters 0 and 1,
confluence outlet 2) the day's trace is a permutation of all three
reaches and the confluence follows both headwaters. -/
theorem c1_scheduler_each_reach_once_witness :
    ∃ st', runDay tinyNet (fun _ => (1:ℚ)) = some st' ∧
      st'.trace.Perm (List.range tinyNet.n) ∧
      ∀ c ∈ tinyNet.pending0, ∀ pre post, st'.trace = pre ++ c :: post →
        tinyNet.us1 c ∈ pre ∧ tinyNet.us2 c ∈ pre :=
  by
  have hwf : SchedWF tinyNet := by unfold SchedWF; decide
  have hval : ∀ r : ℕ, (fun _ => (1:ℚ)) r ≠ sentinel := by
    intro r
    show (1:ℚ) ≠ sentinel
    decide
  exact c1_scheduler_each_reach_once tinyNet (fun _ => (1:ℚ)) hwf hval

/-- Claim C2 (code bug): a perpetually blocked confluence makes
run_below_confluences spin forever instead of failing loudly.  On the
malformed network `badNet` a full sweep of the pending list is the
identity (the confluence's guard reads the sentinel), so the source
`while` loop never terminates: the fuelled embedding returns `none`
for every fuel, and the scheduler reports no error. -/
theorem c2_blocked_confluence_spins_forever :
    (scanPass badNet (fun _ => (1:ℚ)) [2] initSt = ([2], initSt)) ∧
    (∀ fuel, runBelow badNet (fun _ => (1:ℚ)) fuel [2] initSt = none) ∧
    runDay badNet (fun _ => (1:ℚ)) = none := by
  have hscan : scanPass badNet (fun _ => (1:ℚ)) [2] initSt = ([2], initSt) := by
    rw [scanPass, scanFrom, dif_pos (by norm_num)]
    rw [if_pos (by decide)]
    rw [scanFrom, dif_neg (by norm_num)]
  have hall : ∀ fuel, runBelow badNet (fun _ => (1:ℚ)) fuel [2] initSt = none := by
    intro fuel
    induction fuel with
    | zero => rw [runBelow]; simp
    | succ f ih =>
        rw [runBelow, if_neg (by simp)]
        rw [hscan]
        exact ih
  exact ⟨hscan, hall, hall 1⟩

end SeRFE
